import Mathlib

/-!
Shallow embedding of `Split_on_Primer.py`, a primer demultiplexer.

Sequence data is modelled as `List Char`; the numpy `uint8` views of the
source compare characters for equality only, so character lists are a
faithful carrier.  Machine integers are modelled as `Nat` (all quantities
involved are small and non-negative) except where the source subtracts
possibly-larger values, where `Int` is used explicitly.
-/

namespace SplitOnPrimer

/-- A sequence record.  In the source a read is the nested list
`[header, [bases]]` (fasta) or `[header, [bases, quality]]` (fastq);
the optional quality string is modelled with `Option`. -/
structure Read where
  header : String
  bases : List Char
  quality : Option (List Char)
  deriving DecidableEq

/-- One primer-table entry `[primer_name, primer_sequence, original_length]`
as built by `extract_primers` (lines 109-132): `sequence` is the original
primer with the first `i` characters dropped for shift variant `i`, and
`length` is the untruncated primer length. -/
structure Primer where
  name : String
  sequence : List Char
  length : Nat
  deriving DecidableEq

/-- Line 135-138: `hamming_distance`, the number of differing positions of
the two zipped sequences (`sum([s_nuc != p_nuc for ... in zip(...)])`). -/
def hamming_distance (sequence primer : List Char) : Nat :=
  ((sequence.zip primer).map (fun sp => if sp.1 ≠ sp.2 then 1 else 0)).sum

/-- Lines 154-162: the inner `for pos_prim in range(primer.size)` loop of
`levenshetein_distance_numba`.  Walks the primer, carrying
`diag = previous[pos_prim]`, `prevRest = previous[pos_prim+1:]` and
`left = current[pos_prim]` (the cell written just before), and returns the
list of cells written at indices `1 ..` of the current row.  The `headD 0`
default is never consulted when `primer.size <= sequence.size`, the only
regime in which the source's fixed-size arrays are not overrun. -/
def fillCells : List Char → List Nat → Char → Nat → Nat → List Nat
  | [], _, _, _, _ => []
  | prim_seq :: bs, prevRest, nuc_seq, diag, left =>
    let ins := prevRest.headD 0 + 1
    let del := left + 1
    let chg := diag + (if nuc_seq = prim_seq then 0 else 1)
    let m := min ins (min del chg)
    m :: fillCells bs prevRest.tail nuc_seq (prevRest.headD 0) m

/-- Lines 150-165: one iteration of the `while` loop.  `current[0]` is set
to `pos_seq + 1`, the inner loop overwrites cells `1 .. primer.size` and
tracks the running minimum of the written cells starting from
`max_mis + 1`; cells beyond `primer.size` keep the stale values of the
array being written into (`cur`).  Returns the written row and the
running minimum. -/
def levStep (primer : List Char) (nuc_seq : Char) (pos_seq : Nat)
    (prev cur : List Nat) (maxMis : Nat) : List Nat × Nat :=
  let cells := fillCells primer prev.tail nuc_seq (prev.headD 0) (pos_seq + 1)
  ((pos_seq + 1) :: (cells ++ cur.drop (primer.length + 1)),
    cells.foldl min (maxMis + 1))

/-- Lines 150-170: the `while pos_seq < sequence.size and
lowest_cost_possible <= max_mis` loop, followed by the two returns.  The
first list argument is the unprocessed suffix of `sequence`; after the
row body the source swaps `previous, current = current, previous`. -/
def levLoop (primer : List Char) (maxMis : Nat) :
    List Char → Nat → List Nat → List Nat → Nat → Nat
  | [], _, prev, _, lowest =>
    if maxMis < lowest then lowest else prev.getLastD 0
  | nuc_seq :: rest, pos_seq, prev, cur, lowest =>
    if maxMis < lowest then lowest
    else
      let s := levStep primer nuc_seq pos_seq prev cur maxMis
      levLoop primer maxMis rest (pos_seq + 1) s.1 prev s.2

/-- Lines 142-170: `levenshetein_distance_numba(sequence, primer, max_mis)`.
Both rolling rows are initialised to `np.arange(sequence.size + 1)` and
`lowest_cost_possible` starts at `0`; on exit the function returns
`lowest_cost_possible` when it exceeds `max_mis`, else `previous[-1]`. -/
def levenshetein_distance_numba (sequence primer : List Char) (maxMis : Nat) : Nat :=
  levLoop primer maxMis sequence 0
    (List.range (sequence.length + 1)) (List.range (sequence.length + 1)) 0

/-- Lines 173-178: `levenshtein_distance`, which converts both strings to
byte arrays (identity on our carrier) and calls the jitted kernel. -/
def levenshtein_distance (sequence primer : List Char) (maxMis : Nat) : Nat :=
  levenshetein_distance_numba sequence primer maxMis

/-- Reference definition: the textbook unit-cost edit distance, computed by
the standard full dynamic program with rows of size `len(primer) + 1`
(row `0` is `0,1,...,len(primer)`; each next row starts with `i` and uses
the insert/delete/substitute recurrence of `fillCells`). -/
def levenshtein_classic (sequence primer : List Char) : Nat :=
  (sequence.foldl
    (fun row nuc =>
      (row.headD 0 + 1) :: fillCells primer row.tail nuc (row.headD 0) (row.headD 0 + 1))
    (List.range (primer.length + 1))).getLastD 0

/-- Lines 181-189: `trim_primer`, dropping the first `length` characters of
the bases and, when a quality string is present, of the quality too. -/
def trim_primer (read : Read) (length : Nat) : Read :=
  Read.mk read.header (read.bases.drop length)
    (read.quality.map (fun q => q.drop length))

/-- Lines 195-219: the `for primer in primer_list` loop of
`compare_sequences`.  Each variant is skipped when both the read shift and
its primer shift are non-zero; otherwise a distance is computed (the
`method == 'hamming' and False` guard is kept verbatim from line 208) and
on the first distance within the mismatch budget the triple
`[distance, primer_name, primer_length]` is appended and the loop breaks. -/
def compareLoop (sequence : List Char) (read_shift : Nat) (method : String)
    (maxMis : Nat) : List Primer → List (Nat × String × Nat) → List (Nat × String × Nat)
  | [], distance_results => distance_results
  | p :: rest, distance_results =>
    let primer_shift : Int := (p.length : Int) - (p.sequence.length : Int)
    if read_shift ≠ 0 ∧ primer_shift ≠ 0 then
      compareLoop sequence read_shift method maxMis rest distance_results
    else
      let distance :=
        if method = "hamming" ∧ False then
          hamming_distance (sequence.take p.sequence.length) p.sequence
            + ((read_shift : Int) - primer_shift).natAbs
        else
          levenshtein_distance (sequence.take p.sequence.length) p.sequence maxMis
            + ((read_shift : Int) - primer_shift).natAbs
      if distance ≤ maxMis then distance_results ++ [(distance, p.name, p.length)]
      else compareLoop sequence read_shift method maxMis rest distance_results

/-- Lines 192-223: `compare_sequences`, with the source's argument order. -/
def compare_sequences (sequence : List Char) (primer_list : List Primer)
    (read_shift : Nat) (method : String)
    (distance_results : List (Nat × String × Nat)) (maxMis : Nat) :
    List (Nat × String × Nat) :=
  compareLoop sequence read_shift method maxMis primer_list distance_results

/-- Python's ordering on the result triples `[distance, primer_name,
primer_length]`: lexicographic, as list comparison in the source's
`distance_results.sort()`. -/
def resultLe (x y : Nat × String × Nat) : Bool :=
  decide (x.1 < y.1 ∨ (x.1 = y.1 ∧
    (x.2.1 < y.2.1 ∨ (x.2.1 = y.2.1 ∧ x.2.2 ≤ y.2.2))))

/-- Insertion step of the model of `list.sort()`. -/
def sortInsert (x : Nat × String × Nat) :
    List (Nat × String × Nat) → List (Nat × String × Nat)
  | [] => [x]
  | y :: ys => if resultLe x y then x :: y :: ys else y :: sortInsert x ys

/-- Line 268: `distance_results.sort()`, modelled as an insertion sort under
`resultLe` (the list it is applied to never holds more than one element). -/
def pySort : List (Nat × String × Nat) → List (Nat × String × Nat)
  | [] => []
  | x :: xs => sortInsert x (pySort xs)

/-- Lines 241-261: the `for read_shift in range(0, args.shift + 1)` loop of
`find_best_primer`.  The first argument of the recursion is the number of
shift levels still to try (`args.shift + 1` at the start).  Each level
slices the read at the current shift and calls `compare_sequences` twice
(once nominally with `'hamming'`, once with `'levenshtein'`), breaking out
as soon as the result list is non-empty. -/
def shiftLoop (mis : Nat) (bases : List Char) (primer_list : List Primer) :
    Nat → Nat → List (Nat × String × Nat) → List (Nat × String × Nat)
  | 0, _, distance_results => distance_results
  | fuel + 1, read_shift, distance_results =>
    let sequence := bases.drop read_shift
    let r1 := compare_sequences sequence primer_list read_shift "hamming" distance_results mis
    if r1.length > 0 then r1
    else
      let r2 := compare_sequences sequence primer_list read_shift "levenshtein" r1 mis
      if r2.length > 0 then r2
      else shiftLoop mis bases primer_list fuel (read_shift + 1) r2

/-- Lines 226-281: `find_best_primer((read, primer_list, size))`, with the
implicit globals `args.shift`, `args.mis` and `args.trim` passed
explicitly.  Reads not longer than `size` are returned as `'unsorted'`
before any comparison; otherwise the shift loop runs, the (at most
singleton) result list is sorted, its head names the winning primer, and
the read is trimmed by the primer's original length when trimming is on. -/
def find_best_primer (shift mis : Nat) (trim : Bool) (read : Read)
    (primer_list : List Primer) (size : Nat) : Read × String :=
  if read.bases.length ≤ size then (read, "unsorted")
  else
    let distance_results := shiftLoop mis read.bases primer_list (shift + 1) 0 []
    if distance_results.length ≥ 1 then
      let primer := (pySort distance_results).headD (0, "", 0)
      let read1 := if trim = true then trim_primer read primer.2.2 else read
      (read1, primer.2.1)
    else (read, "unsorted")

/-- Line 114: primer-name sanitization, keeping only alphanumeric
characters, `-` and `_`. -/
def sanitize (s : String) : String :=
  String.mk (s.data.filter (fun l => l.isAlphanum ∨ l = '-' ∨ l = '_'))

/-- Lines 121-123: the shift-variant generation for one primer row:
`for i in range(0, args.shift + 1): primer_list.append([name, seq[i:], length])`. -/
def primerVariants (name : String) (seq : List Char) (shift : Nat) : List Primer :=
  (List.range (shift + 1)).map (fun i => Primer.mk name (seq.drop i) seq.length)

/-- Lines 92-132: the pure content of `extract_primers`: for each row the
name is sanitized, an output file is opened under that name (modelled by
recording the name; a repeated name reopens and truncates the earlier
file and replaces the dictionary entry), the shift variants are appended,
and finally the `'unsorted'` sink is added.  Returns
`(primer_list, opened sink names in order)`. -/
def extract_primers (shift : Nat) : List (String × List Char) → List Primer × List String
  | [] => ([], ["unsorted"])
  | row :: rest =>
    let name := sanitize row.1
    let tail := extract_primers shift rest
    (primerVariants name row.2 shift ++ tail.1, name :: tail.2)

/-- Descending insertion step for the model of `sorted(..., reverse=True)`. -/
def descInsert (x : Nat) : List Nat → List Nat
  | [] => [x]
  | y :: ys => if y ≤ x then x :: y :: ys else y :: descInsert x ys

/-- Model of `sorted(xs, reverse=True)`. -/
def sortDescending : List Nat → List Nat
  | [] => []
  | x :: xs => descInsert x (sortDescending xs)

/-- Line 300: `size = sorted(((value[2] + args.mis) for value in
primer_list), reverse=True)[0]`, the largest `original_length + max_mis`
over the primer list (the `headD 0` default stands for the `IndexError`
the source would raise on an empty primer file). -/
def sizeOfPrimerList (primer_list : List Primer) (mis : Nat) : Nat :=
  (sortDescending (primer_list.map (fun value => value.length + mis))).headD 0

/-- Lines 313-332: one chunk of the main loop.  Every read of the group is
sent through `find_best_primer` (the worker pool applies exactly this
function to each read; `imap_unordered` may permute completion order,
which no counting property depends on) and each result is written once to
the sink it names.  The source's second `for result in it` loop re-reads
the already exhausted pool iterator and writes nothing. -/
def processChunk (shift mis : Nat) (trim : Bool) (primer_list : List Primer)
    (size : Nat) (group : List Read) : List (Read × String) :=
  group.map (fun read => find_best_primer shift mis trim read primer_list size)

/-- Lines 309-334: the `while True` loop of `main`, processing the input
stream chunk by chunk until the stream is exhausted; the written records
are the concatenation of the per-chunk results. -/
def runPipeline (shift mis : Nat) (trim : Bool) (primer_list : List Primer)
    (size : Nat) (chunks : List (List Read)) : List (Read × String) :=
  (chunks.map (processChunk shift mis trim primer_list size)).flatten

/-- Instrumentation of `compareLoop`: the number of distance computations
the loop performs (one per variant that is not skipped, stopping after an
accepted variant, exactly as in lines 195-219). -/
def compareCount (sequence : List Char) (read_shift mis : Nat) : List Primer → Nat
  | [] => 0
  | p :: rest =>
    let primer_shift : Int := (p.length : Int) - (p.sequence.length : Int)
    if read_shift ≠ 0 ∧ primer_shift ≠ 0 then
      compareCount sequence read_shift mis rest
    else
      if levenshtein_distance (sequence.take p.sequence.length) p.sequence mis
          + ((read_shift : Int) - primer_shift).natAbs ≤ mis then 1
      else 1 + compareCount sequence read_shift mis rest

/-- Instrumentation of `shiftLoop`: the number of distance computations of
the shift loop (each level calls `compare_sequences` twice, lines 248 and
256, so an unsuccessful level computes every non-skipped distance twice). -/
def shiftLoopCount (mis : Nat) (bases : List Char) (primer_list : List Primer) :
    Nat → Nat → Nat
  | 0, _ => 0
  | fuel + 1, read_shift =>
    let sequence := bases.drop read_shift
    let c1 := compareCount sequence read_shift mis primer_list
    if (compare_sequences sequence primer_list read_shift "hamming" [] mis).length > 0 then c1
    else
      if (compare_sequences sequence primer_list read_shift "levenshtein" [] mis).length > 0 then
        c1 + c1
      else c1 + c1 + shiftLoopCount mis bases primer_list fuel (read_shift + 1)

/-- Instrumentation of `find_best_primer`: the number of distance
computations it performs on a given read (zero when the read is returned
as `'unsorted'` by the length guard of lines 236-237). -/
def findBestPrimerCount (shift mis : Nat) (read : Read)
    (primer_list : List Primer) (size : Nat) : Nat :=
  if read.bases.length ≤ size then 0
  else shiftLoopCount mis read.bases primer_list (shift + 1) 0

/-- The distance the matcher charges a variant `p` at read shift
`read_shift` on candidate `candidate = bases[read_shift:]`:
`edit_distance(candidate[:len(p.sequence)], p.sequence) + |read_shift -
primer_shift|` with `primer_shift = original_length - len(p.sequence)`,
where the edit distance is the source's bounded Levenshtein. -/
def compDistance (candidate : List Char) (read_shift : Nat) (p : Primer)
    (mis : Nat) : Nat :=
  levenshtein_distance (candidate.take p.sequence.length) p.sequence mis
    + ((read_shift : Int) - ((p.length : Int) - (p.sequence.length : Int))).natAbs

/-- Scan of one shift level in declaration order over the candidate
`bases[read_shift:]`: the first variant that is not skipped by the
shift-combination rule and whose charged distance is within the mismatch
budget. -/
def firstAcceptedInLevel (candidate : List Char) (mis read_shift : Nat) :
    List Primer → Option Primer
  | [] => none
  | p :: rest =>
    if read_shift ≠ 0 ∧ ((p.length : Int) - (p.sequence.length : Int)) ≠ 0 then
      firstAcceptedInLevel candidate mis read_shift rest
    else if compDistance candidate read_shift p mis ≤ mis then some p
    else firstAcceptedInLevel candidate mis read_shift rest

/-- Scan of the shift levels in ascending order (the first argument of the
recursion is the number of levels still to try): the first level holding
an accepted variant, paired with that variant. -/
def firstAccepted (bases : List Char) (mis : Nat) (primer_list : List Primer) :
    Nat → Nat → Option (Nat × Primer)
  | 0, _ => none
  | fuel + 1, read_shift =>
    match firstAcceptedInLevel (bases.drop read_shift) mis read_shift primer_list with
    | some p => some (read_shift, p)
    | none => firstAccepted bases mis primer_list fuel (read_shift + 1)

/-! ### Characterization of the comparison loops -/

theorem compareLoop_spec (sequence : List Char) (read_shift : Nat)
    (method : String) (mis : Nat) (pl : List Primer)
    (res : List (Nat × String × Nat)) :
    compareLoop sequence read_shift method mis pl res =
      match firstAcceptedInLevel sequence mis read_shift pl with
      | some p => res ++ [(compDistance sequence read_shift p mis, p.name, p.length)]
      | none => res := by
  induction pl generalizing res with
  | nil => simp [compareLoop, firstAcceptedInLevel]
  | cons p rest ih =>
    by_cases hskip : read_shift ≠ 0 ∧ ((p.length : Int) - (p.sequence.length : Int)) ≠ 0
    · simp [compareLoop, firstAcceptedInLevel, hskip, ih]
    · by_cases hacc : compDistance sequence read_shift p mis ≤ mis
      · simp only [compDistance] at hacc
        simp [compareLoop, firstAcceptedInLevel, hskip, hacc, compDistance]
      · simp only [compDistance] at hacc
        simp [compareLoop, firstAcceptedInLevel, hskip, hacc, compDistance, ih]

theorem shiftLoop_spec (mis : Nat) (bases : List Char) (pl : List Primer) :
    ∀ fuel read_shift,
      shiftLoop mis bases pl fuel read_shift [] =
        match firstAccepted bases mis pl fuel read_shift with
        | some rp => [(compDistance (bases.drop rp.1) rp.1 rp.2 mis, rp.2.name, rp.2.length)]
        | none => [] := by
  intro fuel
  induction fuel with
  | zero => intro r; simp [shiftLoop, firstAccepted]
  | succ n ih =>
    intro r
    show (let sequence := bases.drop r
      let r1 := compare_sequences sequence pl r "hamming" [] mis
      if r1.length > 0 then r1
      else
        let r2 := compare_sequences sequence pl r "levenshtein" r1 mis
        if r2.length > 0 then r2
        else shiftLoop mis bases pl n (r + 1) r2) = _
    simp only [compare_sequences, compareLoop_spec, firstAccepted]
    cases h : firstAcceptedInLevel (bases.drop r) mis r pl with
    | some p => simp [h]
    | none => simp [h, ih]

theorem find_best_primer_spec (shift mis : Nat) (trim : Bool) (read : Read)
    (pl : List Primer) (size : Nat) (h : size < read.bases.length) :
    find_best_primer shift mis trim read pl size =
      match firstAccepted read.bases mis pl (shift + 1) 0 with
      | some rp => ((if trim = true then trim_primer read rp.2.length else read), rp.2.name)
      | none => (read, "unsorted") := by
  unfold find_best_primer
  rw [if_neg (Nat.not_le.mpr h), shiftLoop_spec]
  cases hfa : firstAccepted read.bases mis pl (shift + 1) 0 with
  | some rp => simp [pySort, sortInsert]
  | none => simp

/-! ### Sample inputs used by the witnesses -/

/-- A fasta-style read of 10 bases. -/
def sampleRead : Read := Read.mk "r1" ['A', 'C', 'G', 'T', 'A', 'C', 'G', 'T', 'A', 'A'] none

/-- A fastq-style read of 10 bases with a quality string of equal length. -/
def sampleReadQ : Read :=
  Read.mk "r1" ['A', 'C', 'G', 'T', 'A', 'C', 'G', 'T', 'A', 'A']
    (some ['I', 'I', 'I', 'I', 'I', 'I', 'I', 'I', 'I', 'I'])

/-- A read of 2 bases, shorter than any primer-plus-mismatch bound. -/
def shortRead : Read := Read.mk "r2" ['A', 'C'] none

/-- A shift-0 variant of the 4-base primer `ACGT`. -/
def samplePrimer : Primer := Primer.mk "p1" ['A', 'C', 'G', 'T'] 4

/-! ### Claim theorems -/

/-- C1: for every record long enough to be matched, the matcher scans shift
levels `0..max_shift` in ascending order and, within each level, the
primer variants in declaration order; the accepted match is the first
scanned variant whose computed distance is within the mismatch budget,
scanning stops there (no further variants or shift levels are tried), and
the returned sink name is that variant's primer name. -/
theorem c1_first_accepted_wins (shift mis : Nat) (trim : Bool) (read : Read)
    (pl : List Primer) (size : Nat) (h : size < read.bases.length) :
    find_best_primer shift mis trim read pl size =
      match firstAccepted read.bases mis pl (shift + 1) 0 with
      | some rp => ((if trim = true then trim_primer read rp.2.length else read), rp.2.name)
      | none => (read, "unsorted") :=
  find_best_primer_spec shift mis trim read pl size h

/-- Witness for C1 at a concrete read and primer table. -/
theorem c1_first_accepted_wins_witness :
    4 < sampleRead.bases.length ∧
      find_best_primer 0 0 true sampleRead [samplePrimer] 4 =
        match firstAccepted sampleRead.bases 0 [samplePrimer] (0 + 1) 0 with
        | some rp =>
          ((if true = true then trim_primer sampleRead rp.2.length else sampleRead), rp.2.name)
        | none => (sampleRead, "unsorted") :=
  ⟨by decide, c1_first_accepted_wins 0 0 true sampleRead [samplePrimer] 4 (by decide)⟩

/-- C2 evaluation: on `("ACGT", "AGT", 5)` the source's bounded Levenshtein
returns `4`, a stale cell of its rolling rows (which are sized by the
first argument but indexed by the second), while the classic edit
distance of the two strings is `1`, well within the bound of `5`; on the
equal-length pair `("AAAA", "TTTT", 2)` it correctly reports `3`, a value
exceeding the bound `2` (the classic distance being `4`). -/
theorem c2_bounded_lev_eval :
    levenshtein_distance ['A', 'C', 'G', 'T'] ['A', 'G', 'T'] 5 = 4 ∧
      levenshtein_classic ['A', 'C', 'G', 'T'] ['A', 'G', 'T'] = 1 ∧
      levenshtein_distance ['A', 'A', 'A', 'A'] ['T', 'T', 'T', 'T'] 2 = 3 ∧
      levenshtein_classic ['A', 'A', 'A', 'A'] ['T', 'T', 'T', 'T'] = 4 := by
  decide

/-- C9: the distance used for every variant comparison is the bounded
Levenshtein regardless of the requested method; `compare_sequences` with
method `'hamming'` returns the same result as with `'levenshtein'`
because the Hamming branch is guarded by a literal `False`. -/
theorem c9_hamming_branch_dead (sequence : List Char) (pl : List Primer)
    (read_shift : Nat) (res : List (Nat × String × Nat)) (mis : Nat) :
    compare_sequences sequence pl read_shift "hamming" res mis =
      compare_sequences sequence pl read_shift "levenshtein" res mis := by
  simp [compare_sequences, compareLoop_spec]

/-- C10: the bounded Levenshtein function applied to an empty first
sequence returns `0` for every primer and bound (its `while` loop body
never runs and it reports the single stale cell `0`), not the primer
length `len(p)` that the classic edit distance yields. -/
theorem c10_empty_candidate (primer : List Char) (mis : Nat) :
    levenshtein_distance [] primer mis = 0 ∧
      levenshtein_classic [] primer = primer.length := by
  constructor
  · simp [levenshtein_distance, levenshetein_distance_numba, levLoop, List.range_succ]
  · simp [levenshtein_classic, List.range_succ]

/-! ### Helper lemmas on the scan functions -/

theorem firstAcceptedInLevel_mem (sequence : List Char) (mis r : Nat) :
    ∀ pl p, firstAcceptedInLevel sequence mis r pl = some p → p ∈ pl := by
  intro pl
  induction pl with
  | nil => intro p h; simp [firstAcceptedInLevel] at h
  | cons q qs ih =>
    intro p h
    by_cases hs : r ≠ 0 ∧ ((q.length : Int) - (q.sequence.length : Int)) ≠ 0
    · rw [firstAcceptedInLevel, if_pos hs] at h
      exact List.mem_cons_of_mem q (ih p h)
    · by_cases ha : compDistance sequence r q mis ≤ mis
      · rw [firstAcceptedInLevel, if_neg hs, if_pos ha] at h
        cases h
        exact List.mem_cons_self q qs
      · rw [firstAcceptedInLevel, if_neg hs, if_neg ha] at h
        exact List.mem_cons_of_mem q (ih p h)

theorem firstAccepted_mem (bases : List Char) (mis : Nat) (pl : List Primer) :
    ∀ fuel r0 r p, firstAccepted bases mis pl fuel r0 = some (r, p) → p ∈ pl := by
  intro fuel
  induction fuel with
  | zero => intro r0 r p h; simp [firstAccepted] at h
  | succ n ih =>
    intro r0 r p h
    rw [firstAccepted] at h
    cases hl : firstAcceptedInLevel (bases.drop r0) mis r0 pl with
    | some q =>
      rw [hl] at h
      have hq : q = p := by
        have := Option.some.inj h
        exact congrArg Prod.snd this
      exact hq ▸ firstAcceptedInLevel_mem (bases.drop r0) mis r0 pl q hl
    | none =>
      rw [hl] at h
      exact ih (r0 + 1) r p h

theorem firstAcceptedInLevel_skip (sequence : List Char) (mis r : Nat) (p : Primer)
    (h1 : r ≠ 0) (h2 : ((p.length : Int) - (p.sequence.length : Int)) ≠ 0) :
    ∀ l1 l2, firstAcceptedInLevel sequence mis r (l1 ++ p :: l2) =
      firstAcceptedInLevel sequence mis r (l1 ++ l2) := by
  intro l1
  induction l1 with
  | nil => intro l2; simp [firstAcceptedInLevel, h1, h2]
  | cons q qs ih =>
    intro l2
    by_cases hs : r ≠ 0 ∧ ((q.length : Int) - (q.sequence.length : Int)) ≠ 0
    · simp only [List.cons_append, firstAcceptedInLevel, if_pos hs]
      exact ih l2
    · by_cases ha : compDistance sequence r q mis ≤ mis
      · simp only [List.cons_append, firstAcceptedInLevel, if_neg hs, if_pos ha]
      · simp only [List.cons_append, firstAcceptedInLevel, if_neg hs, if_neg ha]
        exact ih l2

/-- C4: every triple the shift loop reports carries a distance that is
exactly `edit_distance(candidate[:len(variant.sequence)],
variant.sequence) + |read_shift - primer_shift|` for some shift level `r`
with candidate `record.bases[r:]` and some listed variant, whose name and
original length fill the other two fields. -/
theorem c4_distance_formula (bases : List Char) (pl : List Primer)
    (mis fuel r0 d : Nat) (n : String) (L : Nat)
    (h : (d, n, L) ∈ shiftLoop mis bases pl fuel r0 []) :
    ∃ r, ∃ p, p ∈ pl ∧ n = p.name ∧ L = p.length ∧
      d = levenshtein_distance ((bases.drop r).take p.sequence.length) p.sequence mis
        + ((r : Int) - ((p.length : Int) - (p.sequence.length : Int))).natAbs := by
  rw [shiftLoop_spec] at h
  cases hfa : firstAccepted bases mis pl fuel r0 with
  | none => rw [hfa] at h; simp at h
  | some rp =>
    rw [hfa] at h
    simp only [List.mem_singleton, Prod.mk.injEq] at h
    obtain ⟨hd, hn, hL⟩ := h
    exact ⟨rp.1, rp.2, firstAccepted_mem bases mis pl fuel r0 rp.1 rp.2 (by rw [hfa]),
      hn, hL, hd⟩

/-- Witness for C4 at a concrete read and primer table. -/
theorem c4_distance_formula_witness :
    (0, "p1", 4) ∈ shiftLoop 0 sampleRead.bases [samplePrimer] 1 0 [] ∧
      (∃ r, ∃ p, p ∈ [samplePrimer] ∧ "p1" = p.name ∧ 4 = p.length ∧
        0 = levenshtein_distance ((sampleRead.bases.drop r).take p.sequence.length)
              p.sequence 0
          + ((r : Int) - ((p.length : Int) - (p.sequence.length : Int))).natAbs) :=
  ⟨by decide, c4_distance_formula sampleRead.bases [samplePrimer] 0 1 0 0 "p1" 4 (by decide)⟩

/-- C5: during matching at a non-zero read shift, a variant whose primer
shift is also non-zero is skipped outright (removing it from the table
cannot change the result, so no distance for it is ever consulted),
while a variant reached with read shift zero or primer shift zero is
compared: its charged distance decides acceptance. -/
theorem c5_shift_combination_skip (sequence : List Char) (read_shift : Nat)
    (method : String) (mis : Nat) (p : Primer) (l1 l2 : List Primer)
    (res : List (Nat × String × Nat)) :
    (read_shift ≠ 0 → ((p.length : Int) - (p.sequence.length : Int)) ≠ 0 →
      compare_sequences sequence (l1 ++ p :: l2) read_shift method res mis =
        compare_sequences sequence (l1 ++ l2) read_shift method res mis)
    ∧ ((read_shift = 0 ∨ ((p.length : Int) - (p.sequence.length : Int)) = 0) →
      compare_sequences sequence (p :: l2) read_shift method res mis =
        (if compDistance sequence read_shift p mis ≤ mis
         then res ++ [(compDistance sequence read_shift p mis, p.name, p.length)]
         else compare_sequences sequence l2 read_shift method res mis)) := by
  constructor
  · intro h1 h2
    simp only [compare_sequences, compareLoop_spec,
      firstAcceptedInLevel_skip sequence mis read_shift p h1 h2 l1 l2]
  · intro hns
    have hs : ¬(read_shift ≠ 0 ∧ ((p.length : Int) - (p.sequence.length : Int)) ≠ 0) := by
      rcases hns with h | h
      · exact fun hc => hc.1 h
      · exact fun hc => hc.2 h
    simp only [compare_sequences, compareLoop_spec, firstAcceptedInLevel, if_neg hs]
    by_cases ha : compDistance sequence read_shift p mis ≤ mis
    · rw [if_pos ha, if_pos ha]
    · rw [if_neg ha, if_neg ha]

/-- Witness for C5, applying the skip direction at read shift 1 with a
shifted variant and the compare direction at read shift 0. -/
theorem c5_shift_combination_skip_witness :
    (compare_sequences ['A', 'C', 'G'] ([] ++ Primer.mk "p2" ['C', 'G', 'T'] 4 :: [])
        1 "levenshtein" [] 0 =
      compare_sequences ['A', 'C', 'G'] ([] ++ []) 1 "levenshtein" [] 0)
    ∧ (compare_sequences ['A', 'C', 'G', 'T'] (samplePrimer :: []) 0 "levenshtein" [] 0 =
      (if compDistance ['A', 'C', 'G', 'T'] 0 samplePrimer 0 ≤ 0
       then [] ++ [(compDistance ['A', 'C', 'G', 'T'] 0 samplePrimer 0,
         samplePrimer.name, samplePrimer.length)]
       else compare_sequences ['A', 'C', 'G', 'T'] [] 0 "levenshtein" [] 0)) :=
  ⟨(c5_shift_combination_skip ['A', 'C', 'G'] 1 "levenshtein" 0
      (Primer.mk "p2" ['C', 'G', 'T'] 4) [] [] []).1 (by decide) (by decide),
   (c5_shift_combination_skip ['A', 'C', 'G', 'T'] 0 "levenshtein" 0
      samplePrimer [] [] []).2 (Or.inl rfl)⟩

/-- C7: when trimming is enabled and a record matched a primer whose
original (untruncated) length is `L`, the returned record's bases equal
the input bases with the first `L` characters removed, its quality
string (when present) is sliced the same way, and the invariant
`len(bases) = len(quality)` is preserved. -/
theorem c7_trim_slices_bases_and_quality (shift mis : Nat) (read : Read)
    (pl : List Primer) (size : Nat) (r : Nat) (p : Primer)
    (hsize : size < read.bases.length)
    (hacc : firstAccepted read.bases mis pl (shift + 1) 0 = some (r, p))
    (hq : ∀ q, read.quality = some q → q.length = read.bases.length) :
    (find_best_primer shift mis true read pl size).1.bases = read.bases.drop p.length ∧
    (find_best_primer shift mis true read pl size).1.quality =
      read.quality.map (fun q => q.drop p.length) ∧
    (∀ q1, (find_best_primer shift mis true read pl size).1.quality = some q1 →
      q1.length = (find_best_primer shift mis true read pl size).1.bases.length) := by
  have hfb0 := find_best_primer_spec shift mis true read pl size hsize
  rw [hacc] at hfb0
  have hfb : find_best_primer shift mis true read pl size =
      (trim_primer read p.length, p.name) := hfb0
  rw [hfb]
  refine ⟨rfl, rfl, ?_⟩
  intro q1 hq1
  have hq1b : read.quality.map (fun q => q.drop p.length) = some q1 := hq1
  show q1.length = (read.bases.drop p.length).length
  cases hqq : read.quality with
  | none => rw [hqq] at hq1b; exact absurd hq1b (by simp)
  | some q =>
    rw [hqq] at hq1b
    have hq1e : q.drop p.length = q1 := Option.some.inj hq1b
    rw [← hq1e, List.length_drop, List.length_drop, hq q hqq]

/-- Witness for C7 at a concrete fastq read and primer table. -/
theorem c7_trim_slices_bases_and_quality_witness :
    4 < sampleReadQ.bases.length ∧
      firstAccepted sampleReadQ.bases 0 [samplePrimer] (0 + 1) 0 = some (0, samplePrimer) ∧
      ((find_best_primer 0 0 true sampleReadQ [samplePrimer] 4).1.bases =
          sampleReadQ.bases.drop samplePrimer.length ∧
        (find_best_primer 0 0 true sampleReadQ [samplePrimer] 4).1.quality =
          sampleReadQ.quality.map (fun q => q.drop samplePrimer.length) ∧
        (∀ q1, (find_best_primer 0 0 true sampleReadQ [samplePrimer] 4).1.quality = some q1 →
          q1.length = (find_best_primer 0 0 true sampleReadQ [samplePrimer] 4).1.bases.length)) :=
  ⟨by decide, by decide,
    c7_trim_slices_bases_and_quality 0 0 sampleReadQ [samplePrimer] 4 0 samplePrimer
      (by decide) (by decide)
      (by intro q hq; rw [show sampleReadQ.quality = some
        ['I', 'I', 'I', 'I', 'I', 'I', 'I', 'I', 'I', 'I'] from rfl] at hq
          cases hq; decide)⟩

/-- C3: every record of every chunk is routed to exactly one sink and
written exactly once, so the number of written records equals the number
of records read, and summing the per-sink write counts over the distinct
sinks that received anything reproduces that same total: no record is
dropped or duplicated. -/
theorem c3_conservation (shift mis : Nat) (trim : Bool) (pl : List Primer)
    (size : Nat) (chunks : List (List Read)) :
    (runPipeline shift mis trim pl size chunks).length = (chunks.map List.length).sum ∧
    ((((runPipeline shift mis trim pl size chunks).map Prod.snd).dedup).map
        (fun s => ((runPipeline shift mis trim pl size chunks).map Prod.snd).count s)).sum =
      (chunks.map List.length).sum := by
  have hlen : (runPipeline shift mis trim pl size chunks).length =
      (chunks.map List.length).sum := by
    induction chunks with
    | nil => rfl
    | cons c cs ih =>
      show (processChunk shift mis trim pl size c
          ++ (cs.map (processChunk shift mis trim pl size)).flatten).length = _
      rw [List.length_append, List.map_cons, List.sum_cons]
      have hc : (processChunk shift mis trim pl size c).length = c.length :=
        List.length_map c (fun read => find_best_primer shift mis trim read pl size)
      rw [hc]
      exact congrArg (fun t => c.length + t) ih
  refine ⟨hlen, ?_⟩
  rw [List.sum_map_count_dedup_eq_length, List.length_map, hlen]

/-! ### Primer-table loading -/

theorem extract_primers_fst (shift : Nat) :
    ∀ rows, (extract_primers shift rows).1 =
      rows.flatMap (fun row => primerVariants (sanitize row.1) row.2 shift) := by
  intro rows
  induction rows with
  | nil => rfl
  | cons row rest ih => simp [extract_primers, ih]

theorem extract_primers_snd (shift : Nat) :
    ∀ rows, (extract_primers shift rows).2 =
      rows.map (fun row => sanitize row.1) ++ ["unsorted"] := by
  intro rows
  induction rows with
  | nil => rfl
  | cons row rest ih => simp [extract_primers, ih]

/-- Two rows whose raw names sanitize to the same primer name. -/
def dupRows : List (String × List Char) :=
  [("p?1", ['A', 'C', 'G', 'T']), ("p1", ['G', 'G', 'G', 'G'])]

/-- C8 counterexample: two input rows collide after sanitization, yet
loading the primer table raises no error of any kind: both rows' variants
are appended to the primer list under the same name `p1`, and the name
`p1` is simply opened twice (the later open truncating the earlier
file). -/
theorem c8_counterexample_no_error_on_collision :
    sanitize "p?1" = sanitize "p1" ∧
      extract_primers 0 dupRows =
        ([Primer.mk "p1" ['A', 'C', 'G', 'T'] 4, Primer.mk "p1" ['G', 'G', 'G', 'G'] 4],
          ["p1", "p1", "unsorted"]) := by
  constructor
  · rfl
  · rfl

/-- C8 amended: loading the primer table performs no duplicate-name check
and cannot fail; every row's shift variants are appended to the primer
list under the row's sanitized name, colliding names included, and one
sink is opened per row (plus `unsorted`), later rows reopening and
truncating the file of an earlier row of the same sanitized name. -/
theorem c8_no_duplicate_check (shift : Nat) (rows : List (String × List Char)) :
    (extract_primers shift rows).1 =
      rows.flatMap (fun row => primerVariants (sanitize row.1) row.2 shift) ∧
    (extract_primers shift rows).2 =
      rows.map (fun row => sanitize row.1) ++ ["unsorted"] :=
  ⟨extract_primers_fst shift rows, extract_primers_snd shift rows⟩

/-! ### Size bound computed by main -/

theorem descInsert_headD (x : Nat) : ∀ l, (descInsert x l).headD 0 = max x (l.headD 0)
  | [] => by simp [descInsert]
  | y :: ys => by
    by_cases h : y ≤ x
    · rw [descInsert, if_pos h]
      simp [Nat.max_eq_left h]
    · rw [descInsert, if_neg h]
      simp [Nat.max_eq_right (Nat.le_of_not_le h)]

theorem foldl_max_init : ∀ (l : List Nat) (a : Nat), l.foldl max a = max a (l.foldl max 0)
  | [], a => by simp
  | x :: xs, a => by
    show xs.foldl max (max a x) = max a ((x :: xs).foldl max 0)
    rw [foldl_max_init xs (max a x)]
    show max (max a x) (xs.foldl max 0) = max a (xs.foldl max (max 0 x))
    rw [foldl_max_init xs (max 0 x), Nat.zero_max, Nat.max_assoc]

theorem sortDescending_headD : ∀ l : List Nat, (sortDescending l).headD 0 = l.foldl max 0
  | [] => rfl
  | x :: xs => by
    show (descInsert x (sortDescending xs)).headD 0 = (x :: xs).foldl max 0
    rw [descInsert_headD, sortDescending_headD xs]
    show max x (xs.foldl max 0) = xs.foldl max (max 0 x)
    rw [foldl_max_init xs (max 0 x), Nat.zero_max]

theorem sizeOfPrimerList_eq_foldl_max (pl : List Primer) (mis : Nat) :
    sizeOfPrimerList pl mis = (pl.map (fun value => value.length + mis)).foldl max 0 := by
  rw [sizeOfPrimerList, sortDescending_headD]

theorem foldl_max_replicate (a : Nat) :
    ∀ (k : Nat) (rest : List Nat),
      (List.replicate (k + 1) a ++ rest).foldl max 0 = max a (rest.foldl max 0)
  | 0, rest => by
    show rest.foldl max (max 0 a) = max a (rest.foldl max 0)
    rw [foldl_max_init rest (max 0 a), Nat.zero_max]
  | k + 1, rest => by
    show (List.replicate (k + 1) a ++ rest).foldl max (max 0 a) = max a (rest.foldl max 0)
    rw [foldl_max_init (List.replicate (k + 1) a ++ rest) (max 0 a),
      foldl_max_replicate a k rest, Nat.zero_max, ← Nat.max_assoc, Nat.max_self]

theorem map_const_eq_replicate {α β : Type} (c : β) :
    ∀ l : List α, l.map (fun _ => c) = List.replicate l.length c
  | [] => rfl
  | x :: xs => by
    show c :: xs.map (fun _ => c) = c :: List.replicate xs.length c
    rw [map_const_eq_replicate c xs]

theorem size_of_extract_primers (shift mis : Nat) :
    ∀ rows, sizeOfPrimerList (extract_primers shift rows).1 mis =
      (rows.map (fun row => row.2.length + mis)).foldl max 0 := by
  intro rows
  rw [sizeOfPrimerList_eq_foldl_max, extract_primers_fst]
  induction rows with
  | nil => rfl
  | cons row rest ih =>
    rw [List.flatMap_cons, List.map_append]
    have hvar : (primerVariants (sanitize row.1) row.2 shift).map
        (fun value => value.length + mis) =
        List.replicate (shift + 1) (row.2.length + mis) := by
      rw [primerVariants, List.map_map]
      show (List.range (shift + 1)).map (fun _ => row.2.length + mis) = _
      rw [map_const_eq_replicate, List.length_range]
    rw [hvar, foldl_max_replicate, ih]
    show max (row.2.length + mis) _ = List.foldl max (max 0 (row.2.length + mis)) _
    rw [foldl_max_init _ (max 0 (row.2.length + mis)), Nat.zero_max]

theorem compareCount_pos (sequence : List Char) (mis : Nat) (p : Primer)
    (rest : List Primer) : 0 < compareCount sequence 0 mis (p :: rest) := by
  rw [compareCount]
  have hs : ¬((0 : Nat) ≠ 0 ∧ ((p.length : Int) - (p.sequence.length : Int)) ≠ 0) := by
    intro hc
    exact hc.1 rfl
  rw [if_neg hs]
  by_cases ha : levenshtein_distance (sequence.take p.sequence.length) p.sequence mis
      + (((0 : Nat) : Int) - ((p.length : Int) - (p.sequence.length : Int))).natAbs ≤ mis
  · rw [if_pos ha]
    exact Nat.one_pos
  · rw [if_neg ha]
    omega

theorem shiftLoopCount_pos (mis : Nat) (bases : List Char) (p : Primer)
    (rest : List Primer) (fuel : Nat) :
    0 < shiftLoopCount mis bases (p :: rest) (fuel + 1) 0 := by
  have hc := compareCount_pos (bases.drop 0) mis p rest
  simp only [shiftLoopCount]
  by_cases h1 : (compare_sequences (bases.drop 0) (p :: rest) 0 "hamming" [] mis).length > 0
  · rw [if_pos h1]
    exact hc
  · rw [if_neg h1]
    by_cases h2 : (compare_sequences (bases.drop 0) (p :: rest) 0 "levenshtein" [] mis).length > 0
    · rw [if_pos h2]
      omega
    · rw [if_neg h2]
      omega

/-- C6: the matcher classifies a record as `unsorted` immediately, with no
distance computed, exactly when its length is at most the `size` bound
that `main` derives from the primer table, and that bound is the maximum
over all primer rows of `original_length + max_mismatches`; a strictly
longer record always proceeds to the comparison loop and computes at
least one distance. -/
theorem c6_short_read_guard (shift mis : Nat) (trim : Bool) (read : Read)
    (rows : List (String × List Char)) (pl : List Primer) (size : Nat)
    (hrows : rows ≠ [])
    (hpl : pl = (extract_primers shift rows).1)
    (hsize : size = sizeOfPrimerList pl mis) :
    size = (rows.map (fun row => row.2.length + mis)).foldl max 0 ∧
    (read.bases.length ≤ size →
      find_best_primer shift mis trim read pl size = (read, "unsorted") ∧
      findBestPrimerCount shift mis read pl size = 0) ∧
    (size < read.bases.length → 0 < findBestPrimerCount shift mis read pl size) := by
  refine ⟨by rw [hsize, hpl, size_of_extract_primers], ?_, ?_⟩
  · intro hshort
    constructor
    · rw [find_best_primer, if_pos hshort]
    · rw [findBestPrimerCount, if_pos hshort]
  · intro hlong
    rw [findBestPrimerCount, if_neg (Nat.not_le.mpr hlong)]
    obtain ⟨row0, rest, hr⟩ : ∃ row0 rest, rows = row0 :: rest := by
      cases rows with
      | nil => exact absurd rfl hrows
      | cons row0 rest => exact ⟨row0, rest, rfl⟩
    have hplc : ∃ p prest, pl = p :: prest := by
      rw [hpl, hr, extract_primers_fst, List.flatMap_cons, primerVariants,
        List.range_succ_eq_map]
      exact ⟨_, _, rfl⟩
    obtain ⟨p, prest, hplc⟩ := hplc
    rw [hplc]
    exact shiftLoopCount_pos mis read.bases p prest shift

/-- Witness for C6 at a one-primer table, a too-short read and the bound
`main` computes. -/
theorem c6_short_read_guard_witness :
    ([("p1", ['A', 'C', 'G', 'T'])] : List (String × List Char)) ≠ [] ∧
      (sizeOfPrimerList (extract_primers 0 [("p1", ['A', 'C', 'G', 'T'])]).1 0 =
        (([("p1", ['A', 'C', 'G', 'T'])] : List (String × List Char)).map
          (fun row => row.2.length + 0)).foldl max 0 ∧
      (shortRead.bases.length ≤
          sizeOfPrimerList (extract_primers 0 [("p1", ['A', 'C', 'G', 'T'])]).1 0 →
        find_best_primer 0 0 false shortRead (extract_primers 0 [("p1", ['A', 'C', 'G', 'T'])]).1
            (sizeOfPrimerList (extract_primers 0 [("p1", ['A', 'C', 'G', 'T'])]).1 0) =
          (shortRead, "unsorted") ∧
        findBestPrimerCount 0 0 shortRead (extract_primers 0 [("p1", ['A', 'C', 'G', 'T'])]).1
          (sizeOfPrimerList (extract_primers 0 [("p1", ['A', 'C', 'G', 'T'])]).1 0) = 0) ∧
      (sizeOfPrimerList (extract_primers 0 [("p1", ['A', 'C', 'G', 'T'])]).1 0 <
          shortRead.bases.length →
        0 < findBestPrimerCount 0 0 shortRead (extract_primers 0 [("p1", ['A', 'C', 'G', 'T'])]).1
          (sizeOfPrimerList (extract_primers 0 [("p1", ['A', 'C', 'G', 'T'])]).1 0))) :=
  ⟨by decide,
    c6_short_read_guard 0 0 false shortRead [("p1", ['A', 'C', 'G', 'T'])]
      (extract_primers 0 [("p1", ['A', 'C', 'G', 'T'])]).1
      (sizeOfPrimerList (extract_primers 0 [("p1", ['A', 'C', 'G', 'T'])]).1 0)
      (by decide) rfl rfl⟩

end SplitOnPrimer
